import Mathlib

/-
Verification of the index-and-query core of the marqo repository.

Shallow embedding of:
- `marqo/core/index_management/vespa_application_package.py`
    (`IndexSettingStore`, `ServiceXml`, `MarqoConfigStore`, `VespaApplicationPackage`)
- `marqo/core/structured_vespa_index.py` (`StructuredVespaIndex`)
- `marqo/tensor_search/filtering.py` (`sanitise_lucene_special_chars`)

Python dictionaries are embedded as functions `String → Option β` (keys are
unique, insertion order is irrelevant to the verified properties), Python
strings as `String` or `List Char`, and raised exceptions as explicit result
constructors.
-/

set_option autoImplicit false

namespace Marqo

/-! ## Dictionary embedding -/

/-- `d[k] = v` on a Python dict embedded as a function. -/
def dictSet {β : Type} (d : String → Option β) (k : String) (v : β) : String → Option β :=
  fun k' => if k' = k then some v else d k'

/-- `del d[k]` on a Python dict embedded as a function. -/
def dictDel {β : Type} (d : String → Option β) (k : String) : String → Option β :=
  fun k' => if k' = k then none else d k'

@[simp] theorem dictSet_self {β : Type} (d : String → Option β) (k : String) (v : β) :
    dictSet d k v k = some v := by
  simp [dictSet]

theorem dictSet_other {β : Type} (d : String → Option β) (k k' : String) (v : β)
    (h : k' ≠ k) : dictSet d k v k' = d k' := by
  simp [dictSet, h]

@[simp] theorem dictDel_self {β : Type} (d : String → Option β) (k : String) :
    dictDel d k k = none := by
  simp [dictDel]

theorem dictDel_other {β : Type} (d : String → Option β) (k k' : String)
    (h : k' ≠ k) : dictDel d k k' = d k' := by
  simp [dictDel, h]

/-! ## Index-Setting Store (`IndexSettingStore`)

The store keeps the current index settings and up to 3 historical versions per
name.  In the source both maps hold `MarqoIndex` objects; the `version` field of
a record handed to `save_index_setting` may be `None`, while every record the
store itself writes carries the integer `target_version` (set through
`copy(deep=True, update={'version': target_version})`).  We encode that
distinction in the types: `MarqoIndexRecord` is the caller-supplied record,
`StoredIndexSetting` a record held by the store.  Fields of the record other
than `name` and `version` are opaque to the store and are collapsed into
`otherFields`. -/

/-- A caller-supplied index-settings record (`MarqoIndex`): `version` is optional. -/
structure MarqoIndexRecord where
  name : String
  version : Option Nat
  otherFields : String
deriving DecidableEq, Repr

/-- A record held by the store: its `version` is always an integer. -/
structure StoredIndexSetting where
  name : String
  version : Nat
  otherFields : String
deriving DecidableEq, Repr

/-- State of an `IndexSettingStore`: the current map and the history map. -/
structure IndexSettingStore where
  index_settings : String → Option StoredIndexSetting
  index_settings_history : String → Option (List StoredIndexSetting)

/-- `IndexSettingStore._HISTORY_VERSION_LIMIT`. -/
def historyVersionLimit : Nat := 3

/-- `index_setting.copy(deep=True, update={'version': target_version})`:
a deep copy of the record with only the `version` field replaced. -/
def storedCopy (r : MarqoIndexRecord) (targetVersion : Nat) : StoredIndexSetting :=
  { name := r.name, version := targetVersion, otherFields := r.otherFields }

/-- `IndexSettingStore._move_to_history`.  Callers only invoke it for names
present in the current map; for an absent name the source would raise
`KeyError`, modelled as leaving the store unchanged (unreachable). -/
def moveToHistory (s : IndexSettingStore) (name : String) : IndexSettingStore :=
  match s.index_settings name with
  | none => s
  | some cur =>
    match s.index_settings_history name with
    | some h =>
      { s with index_settings_history :=
          dictSet s.index_settings_history name ((cur :: h).take historyVersionLimit) }
    | none =>
      { s with index_settings_history := dictSet s.index_settings_history name [cur] }

/-- Result of `save_index_setting`: either the new store state, or the store
state at the moment the `OperationConflictError` was raised. -/
inductive SaveResult where
  | ok (store : IndexSettingStore)
  | conflict (store : IndexSettingStore)

/-- The two source lines `if name in self._index_settings_history: del
self._index_settings_history[name]`, factored out of `save_index_setting`. -/
def clearDeletedHistory (s : IndexSettingStore) (name : String) : IndexSettingStore :=
  if (s.index_settings_history name).isSome
  then { s with index_settings_history := dictDel s.index_settings_history name }
  else s

/-- `IndexSettingStore.save_index_setting`.  `target_version` is
`(index_setting.version or 0) + 1` (in Python `0 or 0 = 0`, matching `getD`). -/
def save_index_setting (s : IndexSettingStore) (r : MarqoIndexRecord) : SaveResult :=
  let targetVersion := r.version.getD 0 + 1
  match s.index_settings r.name with
  | some current =>
    if current.version + 1 ≠ targetVersion then
      SaveResult.conflict s
    else
      let s1 := moveToHistory s r.name
      SaveResult.ok { s1 with index_settings := dictSet s1.index_settings r.name (storedCopy r targetVersion) }
  | none =>
    if targetVersion ≠ 1 then
      SaveResult.conflict s
    else
      -- "If the name exists in history, it means index with the same name was deleted.
      --  Clean the history"
      let s1 := clearDeletedHistory s r.name
      SaveResult.ok { s1 with index_settings := dictSet s1.index_settings r.name (storedCopy r targetVersion) }

/-- `IndexSettingStore.delete_index_setting`: absent names are a warning-only
no-op; present names are moved to history and removed from the current map. -/
def delete_index_setting (s : IndexSettingStore) (name : String) : IndexSettingStore :=
  match s.index_settings name with
  | none => s
  | some _ =>
    let s1 := moveToHistory s name
    { s1 with index_settings := dictDel s1.index_settings name }

/-- An operation on the store, for reasoning about operation sequences. -/
inductive StoreOp where
  | save (r : MarqoIndexRecord)
  | delete (name : String)

/-- Apply one operation; a save that raises `OperationConflictError` leaves the
store unchanged (the exception is raised before any mutation). -/
def applyOp (s : IndexSettingStore) (op : StoreOp) : IndexSettingStore :=
  match op with
  | StoreOp.save r =>
    match save_index_setting s r with
    | SaveResult.ok s' => s'
    | SaveResult.conflict s' => s'
  | StoreOp.delete n => delete_index_setting s n

/-- A store with no current settings and no history: the state obtained by
parsing two `{}` JSON files. -/
def emptyStore : IndexSettingStore :=
  { index_settings := fun _ => none, index_settings_history := fun _ => none }

/-- The store reached by running a sequence of operations from the empty store. -/
def runOps (ops : List StoreOp) : IndexSettingStore :=
  ops.foldl applyOp emptyStore

/-! ### Store invariants -/

/-- Every history list has at most `_HISTORY_VERSION_LIMIT` entries. -/
def HistoryBounded (s : IndexSettingStore) : Prop :=
  ∀ n hl, s.index_settings_history n = some hl → hl.length ≤ historyVersionLimit

/-- Adjacent history entries differ by exactly one version, newest first. -/
def HistoryChain (s : IndexSettingStore) : Prop :=
  ∀ n hl, s.index_settings_history n = some hl →
    hl.Chain' (fun a b => a.version = b.version + 1)

/-- When a name has both a current record and a history, the current version is
one more than the newest history entry. -/
def CurrentLinksHistory (s : IndexSettingStore) : Prop :=
  ∀ n cur hl hd, s.index_settings n = some cur →
    s.index_settings_history n = some hl → hl.head? = some hd →
    cur.version = hd.version + 1

/-- All store invariants together. -/
def StoreInv (s : IndexSettingStore) : Prop :=
  HistoryBounded s ∧ HistoryChain s ∧ CurrentLinksHistory s

theorem storeInv_empty : StoreInv emptyStore := by
  refine ⟨?_, ?_, ?_⟩
  · intro n hl h
    simp [emptyStore] at h
  · intro n hl h
    simp [emptyStore] at h
  · intro n cur hl hd h
    simp [emptyStore] at h

/-! ### Equation lemmas for `save_index_setting` and `delete_index_setting` -/

theorem save_eq_of_current (s : IndexSettingStore) (r : MarqoIndexRecord)
    (current : StoredIndexSetting) (hcur : s.index_settings r.name = some current) :
    save_index_setting s r =
      if current.version + 1 ≠ r.version.getD 0 + 1 then SaveResult.conflict s
      else SaveResult.ok { moveToHistory s r.name with
        index_settings := dictSet (moveToHistory s r.name).index_settings r.name
          (storedCopy r (r.version.getD 0 + 1)) } := by
  unfold save_index_setting
  rw [hcur]

theorem save_eq_of_none (s : IndexSettingStore) (r : MarqoIndexRecord)
    (hcur : s.index_settings r.name = none) :
    save_index_setting s r =
      if r.version.getD 0 + 1 ≠ 1 then SaveResult.conflict s
      else SaveResult.ok { clearDeletedHistory s r.name with
        index_settings := dictSet (clearDeletedHistory s r.name).index_settings r.name
          (storedCopy r (r.version.getD 0 + 1)) } := by
  unfold save_index_setting
  rw [hcur]

theorem delete_eq_of_current (s : IndexSettingStore) (name : String)
    (cur : StoredIndexSetting) (hcur : s.index_settings name = some cur) :
    delete_index_setting s name =
      { moveToHistory s name with
        index_settings := dictDel (moveToHistory s name).index_settings name } := by
  unfold delete_index_setting
  rw [hcur]

theorem delete_eq_of_none (s : IndexSettingStore) (name : String)
    (hcur : s.index_settings name = none) :
    delete_index_setting s name = s := by
  unfold delete_index_setting
  rw [hcur]

theorem clearDeletedHistory_settings (s : IndexSettingStore) (name : String) :
    (clearDeletedHistory s name).index_settings = s.index_settings := by
  unfold clearDeletedHistory
  by_cases h : (s.index_settings_history name).isSome
  · rw [if_pos h]
  · rw [if_neg h]

theorem clearDeletedHistory_self (s : IndexSettingStore) (name : String) :
    (clearDeletedHistory s name).index_settings_history name = none := by
  unfold clearDeletedHistory
  by_cases h : (s.index_settings_history name).isSome
  · rw [if_pos h]
    exact dictDel_self _ _
  · rw [if_neg h]
    exact Option.not_isSome_iff_eq_none.mp h

theorem clearDeletedHistory_other (s : IndexSettingStore) (name n : String) (hn : n ≠ name) :
    (clearDeletedHistory s name).index_settings_history n = s.index_settings_history n := by
  unfold clearDeletedHistory
  by_cases h : (s.index_settings_history name).isSome
  · rw [if_pos h]
    exact dictDel_other _ _ _ hn
  · rw [if_neg h]

/-- A raised `OperationConflictError` happens before any mutation: the store it
carries is the input store. -/
theorem save_conflict_store (s : IndexSettingStore) (r : MarqoIndexRecord)
    (s' : IndexSettingStore) (hs : save_index_setting s r = SaveResult.conflict s') :
    s' = s := by
  cases hcur : s.index_settings r.name with
  | some current =>
    rw [save_eq_of_current s r current hcur] at hs
    by_cases hv : current.version + 1 ≠ r.version.getD 0 + 1
    · rw [if_pos hv] at hs
      exact (SaveResult.conflict.inj hs).symm
    · rw [if_neg hv] at hs
      exact absurd hs (by simp)
  | none =>
    rw [save_eq_of_none s r hcur] at hs
    by_cases ht : r.version.getD 0 + 1 ≠ 1
    · rw [if_pos ht] at hs
      exact (SaveResult.conflict.inj hs).symm
    · rw [if_neg ht] at hs
      exact absurd hs (by simp)

/-- Behaviour of `_move_to_history` on a name present in the current map. -/
theorem moveToHistory_spec (s : IndexSettingStore) (name : String) (cur : StoredIndexSetting)
    (h : s.index_settings name = some cur) :
    (moveToHistory s name).index_settings = s.index_settings ∧
    (moveToHistory s name).index_settings_history name =
      some (match s.index_settings_history name with
            | some hlist => (cur :: hlist).take historyVersionLimit
            | none => [cur]) ∧
    ∀ n, n ≠ name → (moveToHistory s name).index_settings_history n =
      s.index_settings_history n := by
  unfold moveToHistory
  rw [h]
  cases hh : s.index_settings_history name with
  | none => exact ⟨rfl, by simp, fun n hn => dictSet_other _ _ _ _ hn⟩
  | some hlist => exact ⟨rfl, by simp, fun n hn => dictSet_other _ _ _ _ hn⟩

/-- The history list produced by `_move_to_history` for the touched name is
bounded, chained, and headed by the displaced current record, provided the
invariants held before. -/
theorem moveToHistory_newList (s : IndexSettingStore) (name : String)
    (cur : StoredIndexSetting) (hInv : StoreInv s)
    (h : s.index_settings name = some cur) :
    ∀ hl, (moveToHistory s name).index_settings_history name = some hl →
      hl.length ≤ historyVersionLimit ∧
      hl.Chain' (fun a b => a.version = b.version + 1) ∧
      hl.head? = some cur := by
  intro hl hhl
  obtain ⟨-, hself, -⟩ := moveToHistory_spec s name cur h
  rw [hself] at hhl
  obtain ⟨hB, hC, hL⟩ := hInv
  cases hh : s.index_settings_history name with
  | none =>
    rw [hh] at hhl
    simp only [Option.some_inj] at hhl
    subst hhl
    exact ⟨by simp [historyVersionLimit], by simp, rfl⟩
  | some hlist =>
    rw [hh] at hhl
    simp only [Option.some_inj] at hhl
    subst hhl
    have hchain : (cur :: hlist).Chain' (fun a b => a.version = b.version + 1) := by
      rw [List.chain'_cons']
      refine ⟨?_, hC name hlist hh⟩
      intro y hy
      exact hL name cur hlist y h hh hy
    refine ⟨?_, hchain.take _, ?_⟩
    · rw [List.length_take]
      exact min_le_left _ _
    · show ((cur :: hlist).take historyVersionLimit).head? = some cur
      simp [historyVersionLimit]

/-- `save_index_setting` preserves the store invariants. -/
theorem storeInv_save (s : IndexSettingStore) (r : MarqoIndexRecord) (s' : IndexSettingStore)
    (hInv : StoreInv s) (h : save_index_setting s r = SaveResult.ok s') : StoreInv s' := by
  obtain ⟨hB, hC, hL⟩ := hInv
  cases hcur : s.index_settings r.name with
  | some current =>
    rw [save_eq_of_current s r current hcur] at h
    by_cases hv : current.version + 1 ≠ r.version.getD 0 + 1
    · rw [if_pos hv] at h
      exact absurd h (by simp)
    · rw [if_neg hv] at h
      push_neg at hv
      have hok := SaveResult.ok.inj h
      obtain ⟨hsettings, hself, hother⟩ := moveToHistory_spec s r.name current hcur
      -- project the structure literal
      have hs'hist : ∀ n, s'.index_settings_history n =
          (moveToHistory s r.name).index_settings_history n := fun n => by rw [← hok]
      have hs'set : ∀ n, s'.index_settings n =
          dictSet (moveToHistory s r.name).index_settings r.name
            (storedCopy r (r.version.getD 0 + 1)) n := fun n => by rw [← hok]
      refine ⟨?_, ?_, ?_⟩
      · intro n hl hhl
        rw [hs'hist n] at hhl
        by_cases hn : n = r.name
        · subst hn
          exact (moveToHistory_newList s r.name current ⟨hB, hC, hL⟩ hcur hl hhl).1
        · rw [hother n hn] at hhl
          exact hB n hl hhl
      · intro n hl hhl
        rw [hs'hist n] at hhl
        by_cases hn : n = r.name
        · subst hn
          exact (moveToHistory_newList s r.name current ⟨hB, hC, hL⟩ hcur hl hhl).2.1
        · rw [hother n hn] at hhl
          exact hC n hl hhl
      · intro n cur' hl hd hcur' hhl hhd
        rw [hs'hist n] at hhl
        rw [hs'set n] at hcur'
        by_cases hn : n = r.name
        · subst hn
          rw [dictSet_self] at hcur'
          obtain rfl := Option.some_inj.mp hcur'
          have hhead := (moveToHistory_newList s r.name current ⟨hB, hC, hL⟩ hcur hl hhl).2.2
          rw [hhd] at hhead
          obtain rfl := Option.some_inj.mp hhead
          simpa [storedCopy] using hv.symm
        · rw [dictSet_other _ _ _ _ hn, hsettings] at hcur'
          rw [hother n hn] at hhl
          exact hL n cur' hl hd hcur' hhl hhd
  | none =>
    rw [save_eq_of_none s r hcur] at h
    by_cases ht : r.version.getD 0 + 1 ≠ 1
    · rw [if_pos ht] at h
      exact absurd h (by simp)
    · rw [if_neg ht] at h
      have hok := SaveResult.ok.inj h
      have hs'hist : ∀ n, s'.index_settings_history n =
          (clearDeletedHistory s r.name).index_settings_history n := fun n => by rw [← hok]
      have hs'set : ∀ n, s'.index_settings n =
          dictSet (clearDeletedHistory s r.name).index_settings r.name
            (storedCopy r (r.version.getD 0 + 1)) n := fun n => by rw [← hok]
      refine ⟨?_, ?_, ?_⟩
      · intro n hl hhl
        rw [hs'hist n] at hhl
        by_cases hn : n = r.name
        · subst hn
          rw [clearDeletedHistory_self] at hhl
          exact absurd hhl (by simp)
        · rw [clearDeletedHistory_other s r.name n hn] at hhl
          exact hB n hl hhl
      · intro n hl hhl
        rw [hs'hist n] at hhl
        by_cases hn : n = r.name
        · subst hn
          rw [clearDeletedHistory_self] at hhl
          exact absurd hhl (by simp)
        · rw [clearDeletedHistory_other s r.name n hn] at hhl
          exact hC n hl hhl
      · intro n cur' hl hd hcur' hhl hhd
        rw [hs'hist n] at hhl
        rw [hs'set n] at hcur'
        by_cases hn : n = r.name
        · subst hn
          rw [clearDeletedHistory_self] at hhl
          exact absurd hhl (by simp)
        · rw [dictSet_other _ _ _ _ hn, clearDeletedHistory_settings] at hcur'
          rw [clearDeletedHistory_other s r.name n hn] at hhl
          exact hL n cur' hl hd hcur' hhl hhd

/-- `delete_index_setting` preserves the store invariants. -/
theorem storeInv_delete (s : IndexSettingStore) (name : String)
    (hInv : StoreInv s) : StoreInv (delete_index_setting s name) := by
  obtain ⟨hB, hC, hL⟩ := hInv
  cases hcur : s.index_settings name with
  | none =>
    rw [delete_eq_of_none s name hcur]
    exact ⟨hB, hC, hL⟩
  | some cur =>
    rw [delete_eq_of_current s name cur hcur]
    obtain ⟨hsettings, hself, hother⟩ := moveToHistory_spec s name cur hcur
    refine ⟨?_, ?_, ?_⟩
    · intro n hl hhl
      have hhl' : (moveToHistory s name).index_settings_history n = some hl := hhl
      by_cases hn : n = name
      · subst hn
        exact (moveToHistory_newList s n cur ⟨hB, hC, hL⟩ hcur hl hhl').1
      · rw [hother n hn] at hhl'
        exact hB n hl hhl'
    · intro n hl hhl
      have hhl' : (moveToHistory s name).index_settings_history n = some hl := hhl
      by_cases hn : n = name
      · subst hn
        exact (moveToHistory_newList s n cur ⟨hB, hC, hL⟩ hcur hl hhl').2.1
      · rw [hother n hn] at hhl'
        exact hC n hl hhl'
    · intro n cur' hl hd hcur' hhl hhd
      have hcur'' : dictDel (moveToHistory s name).index_settings name n = some cur' := hcur'
      have hhl' : (moveToHistory s name).index_settings_history n = some hl := hhl
      by_cases hn : n = name
      · subst hn
        rw [dictDel_self] at hcur''
        exact absurd hcur'' (by simp)
      · rw [dictDel_other _ _ _ hn, hsettings] at hcur''
        rw [hother n hn] at hhl'
        exact hL n cur' hl hd hcur'' hhl' hhd

/-- Every operation preserves the store invariants. -/
theorem storeInv_applyOp (s : IndexSettingStore) (op : StoreOp)
    (hInv : StoreInv s) : StoreInv (applyOp s op) := by
  cases op with
  | save r =>
    cases hs : save_index_setting s r with
    | ok s' =>
      have heq : applyOp s (StoreOp.save r) = s' := by
        show (match save_index_setting s r with
              | SaveResult.ok s2 => s2
              | SaveResult.conflict s2 => s2) = s'
        rw [hs]
      rw [heq]
      exact storeInv_save s r s' hInv hs
    | conflict s' =>
      have heq : applyOp s (StoreOp.save r) = s' := by
        show (match save_index_setting s r with
              | SaveResult.ok s2 => s2
              | SaveResult.conflict s2 => s2) = s'
        rw [hs]
      rw [heq, save_conflict_store s r s' hs]
      exact hInv
  | delete n => exact storeInv_delete s n hInv

/-- Any store reachable from the empty store satisfies the invariants. -/
theorem storeInv_runOps (ops : List StoreOp) : StoreInv (runOps ops) := by
  suffices h : ∀ s, StoreInv s → StoreInv (ops.foldl applyOp s) from
    h emptyStore storeInv_empty
  induction ops with
  | nil => intro s hs; exact hs
  | cons op rest ih =>
    intro s hs
    exact ih (applyOp s op) (storeInv_applyOp s op hs)

/-! ### Claim theorems for the Index-Setting Store -/

/-- Helper for C3: a successful save over an existing current record puts the
displaced record at the head of that name's history. -/
theorem save_displaced_head (s : IndexSettingStore) (r : MarqoIndexRecord)
    (cur : StoredIndexSetting) (s' : IndexSettingStore)
    (hcur : s.index_settings r.name = some cur)
    (hok : save_index_setting s r = SaveResult.ok s') :
    ∃ hl, s'.index_settings_history r.name = some hl ∧ hl.head? = some cur := by
  rw [save_eq_of_current s r cur hcur] at hok
  by_cases hv : cur.version + 1 ≠ r.version.getD 0 + 1
  · rw [if_pos hv] at hok
    exact absurd hok (by simp)
  · rw [if_neg hv] at hok
    have hok' := SaveResult.ok.inj hok
    have hhist : s'.index_settings_history r.name =
        (moveToHistory s r.name).index_settings_history r.name := by rw [← hok']
    obtain ⟨-, hself, -⟩ := moveToHistory_spec s r.name cur hcur
    cases hh : s.index_settings_history r.name with
    | none =>
      rw [hh] at hself
      have hself' : (moveToHistory s r.name).index_settings_history r.name =
          some [cur] := hself
      exact ⟨[cur], hhist.trans hself', rfl⟩
    | some hlist =>
      rw [hh] at hself
      have hself' : (moveToHistory s r.name).index_settings_history r.name =
          some ((cur :: hlist).take historyVersionLimit) := hself
      refine ⟨(cur :: hlist).take historyVersionLimit, hhist.trans hself', ?_⟩
      simp [historyVersionLimit]

/-- C2: `save_index_setting` raises `OperationConflictError` exactly when the
name exists at current version `C` with `C + 1 ≠ T`, or the name is absent and
`T ≠ 1` (where `T = (record.version or 0) + 1`); the store carried by a
conflict is the unchanged input store; and a successful save of an absent name
clears any pre-existing history under that name. -/
theorem save_conflict_characterisation (s : IndexSettingStore) (r : MarqoIndexRecord) :
    (save_index_setting s r = SaveResult.conflict s ↔
      (∃ cur, s.index_settings r.name = some cur ∧
        cur.version + 1 ≠ r.version.getD 0 + 1) ∨
      (s.index_settings r.name = none ∧ r.version.getD 0 + 1 ≠ 1)) ∧
    (∀ s', save_index_setting s r = SaveResult.conflict s' → s' = s) ∧
    (s.index_settings r.name = none →
      ∀ s', save_index_setting s r = SaveResult.ok s' →
        s'.index_settings_history r.name = none) := by
  refine ⟨?_, save_conflict_store s r, ?_⟩
  · cases hcur : s.index_settings r.name with
    | some current =>
      rw [save_eq_of_current s r current hcur]
      by_cases hv : current.version + 1 ≠ r.version.getD 0 + 1
      · rw [if_pos hv]
        exact iff_of_true rfl (Or.inl ⟨current, rfl, hv⟩)
      · rw [if_neg hv]
        push_neg at hv
        refine iff_of_false (by simp) ?_
        rintro (⟨cur, hc, hne⟩ | ⟨hnone, -⟩)
        · obtain rfl := Option.some_inj.mp hc
          exact hne hv
        · exact absurd hnone (by simp)
    | none =>
      rw [save_eq_of_none s r hcur]
      by_cases ht : r.version.getD 0 + 1 ≠ 1
      · rw [if_pos ht]
        exact iff_of_true rfl (Or.inr ⟨rfl, ht⟩)
      · rw [if_neg ht]
        push_neg at ht
        refine iff_of_false (by simp) ?_
        rintro (⟨cur, hc, -⟩ | ⟨-, h1⟩)
        · exact absurd hc (by simp)
        · exact h1 ht
  · intro hnone s' hok
    rw [save_eq_of_none s r hnone] at hok
    by_cases ht : r.version.getD 0 + 1 ≠ 1
    · rw [if_pos ht] at hok
      exact absurd hok (by simp)
    · rw [if_neg ht] at hok
      have hok' := SaveResult.ok.inj hok
      have hhist : s'.index_settings_history r.name =
          (clearDeletedHistory s r.name).index_settings_history r.name := by rw [← hok']
      rw [hhist, clearDeletedHistory_self]

/-- A concrete store: current `A` at version 2; a leftover history for a
previously deleted `B`. -/
def c2Store : IndexSettingStore :=
  { index_settings :=
      dictSet (fun _ => none) "A" { name := "A", version := 2, otherFields := "settings-A" },
    index_settings_history :=
      dictSet (fun _ => none) "B" [{ name := "B", version := 1, otherFields := "settings-B" }] }

/-- The store produced by re-creating `B` in `c2Store`. -/
def c2SavedStore : IndexSettingStore :=
  match save_index_setting c2Store { name := "B", version := none, otherFields := "new-B" } with
  | SaveResult.ok s' => s'
  | SaveResult.conflict s' => s'

/-- Witness for C2: saving `A` with stale version 0 conflicts and carries the
unchanged store; re-creating the deleted `B` succeeds and clears its history. -/
theorem save_conflict_characterisation_witness :
    save_index_setting c2Store { name := "A", version := some 0, otherFields := "x" } =
      SaveResult.conflict c2Store ∧
    c2SavedStore.index_settings_history "B" = none := by
  constructor
  · exact ((save_conflict_characterisation c2Store
      { name := "A", version := some 0, otherFields := "x" }).1).mpr
      (Or.inl ⟨{ name := "A", version := 2, otherFields := "settings-A" }, by decide, by decide⟩)
  · exact (save_conflict_characterisation c2Store
      { name := "B", version := none, otherFields := "new-B" }).2.2 (by decide) c2SavedStore rfl

/-- C3: in any store reached by a sequence of save/delete operations, every
per-name history list has at most 3 entries ordered newest-first (strictly
decreasing versions), and a further successful save that replaces an existing
current record puts the displaced record at `history[name][0]`. -/
theorem history_bounded_and_newest_first (ops : List StoreOp) :
    (∀ (n : String) (hl : List StoredIndexSetting),
      (runOps ops).index_settings_history n = some hl →
      hl.length ≤ 3 ∧ hl.Chain' (fun a b => b.version < a.version)) ∧
    (∀ (r : MarqoIndexRecord) (cur : StoredIndexSetting) (s' : IndexSettingStore),
      (runOps ops).index_settings r.name = some cur →
      save_index_setting (runOps ops) r = SaveResult.ok s' →
      ∃ hl, s'.index_settings_history r.name = some hl ∧ hl.head? = some cur) := by
  obtain ⟨hB, hC, -⟩ := storeInv_runOps ops
  constructor
  · intro n hl hhl
    refine ⟨hB n hl hhl, ?_⟩
    exact (hC n hl hhl).imp (fun a b hab => by omega)
  · intro r cur s' hcur hok
    exact save_displaced_head (runOps ops) r cur s' hcur hok

/-- Saves of `A` producing versions 1, 2, 3, followed by a delete. -/
def c3Ops : List StoreOp :=
  [StoreOp.save { name := "A", version := none, otherFields := "a1" },
   StoreOp.save { name := "A", version := some 1, otherFields := "a2" },
   StoreOp.save { name := "A", version := some 2, otherFields := "a3" },
   StoreOp.delete "A"]

/-- Witness for C3: after the operation sequence `c3Ops`, the history of `A`
is `[v3, v2, v1]`, of length at most 3 and strictly newest-first. -/
theorem history_bounded_and_newest_first_witness :
    ([{ name := "A", version := 3, otherFields := "a3" },
      { name := "A", version := 2, otherFields := "a2" },
      { name := "A", version := 1, otherFields := "a1" }] : List StoredIndexSetting).length ≤ 3 ∧
    List.Chain' (fun a b => b.version < a.version)
      ([{ name := "A", version := 3, otherFields := "a3" },
        { name := "A", version := 2, otherFields := "a2" },
        { name := "A", version := 1, otherFields := "a1" }] : List StoredIndexSetting) :=
  (history_bounded_and_newest_first c3Ops).1 "A"
    [{ name := "A", version := 3, otherFields := "a3" },
     { name := "A", version := 2, otherFields := "a2" },
     { name := "A", version := 1, otherFields := "a1" }] (by decide)

/-- C9: a successful save stores, under the record's name, a copy of the input
record whose `version` field equals the target version `T = (version or 0) + 1`
and whose every other field equals the input's.  The input record itself is a
value and is not mutated; the store writes `copy(deep=True, ...)` of it. -/
theorem save_stores_deep_copy (s : IndexSettingStore) (r : MarqoIndexRecord)
    (s' : IndexSettingStore) (h : save_index_setting s r = SaveResult.ok s') :
    s'.index_settings r.name =
      some { name := r.name, version := r.version.getD 0 + 1, otherFields := r.otherFields } := by
  cases hcur : s.index_settings r.name with
  | some current =>
    rw [save_eq_of_current s r current hcur] at h
    by_cases hv : current.version + 1 ≠ r.version.getD 0 + 1
    · rw [if_pos hv] at h
      exact absurd h (by simp)
    · rw [if_neg hv] at h
      have hok := SaveResult.ok.inj h
      have hset : s'.index_settings r.name =
          dictSet (moveToHistory s r.name).index_settings r.name
            (storedCopy r (r.version.getD 0 + 1)) r.name := by rw [← hok]
      rw [hset, dictSet_self]
      rfl
  | none =>
    rw [save_eq_of_none s r hcur] at h
    by_cases ht : r.version.getD 0 + 1 ≠ 1
    · rw [if_pos ht] at h
      exact absurd h (by simp)
    · rw [if_neg ht] at h
      have hok := SaveResult.ok.inj h
      have hset : s'.index_settings r.name =
          dictSet (clearDeletedHistory s r.name).index_settings r.name
            (storedCopy r (r.version.getD 0 + 1)) r.name := by rw [← hok]
      rw [hset, dictSet_self]
      rfl

/-- The store produced by saving a fresh record `A` into the empty store. -/
def c9SavedStore : IndexSettingStore :=
  match save_index_setting emptyStore { name := "A", version := none, otherFields := "payload" } with
  | SaveResult.ok s' => s'
  | SaveResult.conflict s' => s'

/-- Witness for C9: the fresh save of `A` stores a copy at version 1 with the
other fields intact. -/
theorem save_stores_deep_copy_witness :
    c9SavedStore.index_settings "A" =
      some { name := "A", version := 1, otherFields := "payload" } :=
  save_stores_deep_copy emptyStore
    { name := "A", version := none, otherFields := "payload" } c9SavedStore rfl

/-! ## Marqo config store (`MarqoConfigStore`, `MarqoConfig`)

`MarqoConfig` is a pydantic model with `extra = "allow"`: parsing keeps unknown
fields and `.json()` writes them back.  A config document is embedded as its
`version` plus the list of extra fields. -/

/-- A parsed `marqo_config.json` document: the version and any extra fields. -/
structure MarqoConfigDoc where
  version : String
  extras : List (String × String)
deriving DecidableEq, Repr

/-- `MarqoConfigStore.__init__`: parse the JSON document if one was given
(`MarqoConfig.parse_obj` keeps extra fields). -/
def configStoreInit (doc : Option MarqoConfigDoc) : Option MarqoConfigDoc :=
  doc

/-- `MarqoConfigStore.update_version`: `self._config = MarqoConfig(version=version)`
constructs a fresh config that carries only the version. -/
def configStoreUpdateVersion (_store : Option MarqoConfigDoc) (v : String) :
    Option MarqoConfigDoc :=
  some { version := v, extras := [] }

/-- `MarqoConfigStore.save_to_file`: write `self._config.json()` (version plus
extra fields); an unset config raises `InternalError`. -/
def configStoreSaveToFile (store : Option MarqoConfigDoc) : Except Unit MarqoConfigDoc :=
  match store with
  | none => Except.error ()
  | some c => Except.ok c

/-- Counterexample to C8: a config with an extra field, loaded, then version
updated as `bootstrap` does, then saved, comes back without the extra field. -/
theorem config_extras_lost_on_update :
    configStoreSaveToFile
        (configStoreUpdateVersion
          (configStoreInit (some { version := "2.10.0", extras := [("extra_field", "value")] }))
          "2.12.0") =
      Except.ok { version := "2.12.0", extras := [] } ∧
    ({ version := "2.12.0", extras := [] } : MarqoConfigDoc).extras ≠
      [("extra_field", "value")] := by
  exact ⟨rfl, by decide⟩

/-- C8 (amended): extra fields survive loading a config document and saving it
back to file, but `update_version` (called by `bootstrap`) replaces the config
with a fresh object holding only the version, discarding extra fields. -/
theorem config_extras_roundtrip (doc : MarqoConfigDoc) (v : String) :
    configStoreSaveToFile (configStoreInit (some doc)) = Except.ok doc ∧
    configStoreUpdateVersion (configStoreInit (some doc)) v =
      some { version := v, extras := [] } :=
  ⟨rfl, rfl⟩

/-! ## Bootstrap version gate (`VespaApplicationPackage.need_bootstrapping`)

The source parses semver strings and compares them.  Versions are embedded as
`(major, minor, patch)` triples of naturals compared lexicographically, the
order the external `semver` library implements for release versions
(`optional_minor_and_patch=True` only affects parsing, which is not modelled).
The source guard `self.is_configured and self._marqo_config_store.get()`
requires both that `marqo_config.json` exists and that it parsed to a config;
both are embedded as a single `Option SemVersion` that is `some` exactly when
the file exists and holds a version. -/

/-- A release semantic version. -/
structure SemVersion where
  major : Nat
  minor : Nat
  patch : Nat
deriving DecidableEq, Repr

/-- Boolean lexicographic comparison, as the semver library compares release
versions. -/
def SemVersion.ltb (a b : SemVersion) : Bool :=
  if a.major ≠ b.major then a.major < b.major
  else if a.minor ≠ b.minor then a.minor < b.minor
  else a.patch < b.patch

/-- The strict version order as a proposition. -/
def SemVersion.lt (a b : SemVersion) : Prop :=
  a.major < b.major ∨
    (a.major = b.major ∧ (a.minor < b.minor ∨ (a.minor = b.minor ∧ a.patch < b.patch)))

instance (a b : SemVersion) : Decidable (SemVersion.lt a b) := by
  unfold SemVersion.lt
  exact inferInstance

theorem SemVersion.ltb_iff_lt (a b : SemVersion) : a.ltb b = true ↔ SemVersion.lt a b := by
  unfold SemVersion.ltb SemVersion.lt
  by_cases hmaj : a.major = b.major
  · by_cases hmin : a.minor = b.minor
    · simp [hmaj, hmin]
    · simp [hmaj, hmin]
  · simp [hmaj]

/-- `VespaApplicationPackage.need_bootstrapping`.  `configVersion` is the
version held by `marqo_config.json` (when the file exists and parses),
`marqoConfigDoc` the optional legacy config document, `marqoVersion` the
running Marqo version. -/
def need_bootstrapping (configVersion : Option SemVersion) (marqoConfigDoc : Option SemVersion)
    (marqoVersion : SemVersion) (allowDowngrade : Bool) : Bool :=
  let appVersion :=
    match configVersion with
    | some v => v
    | none =>
      match marqoConfigDoc with
      | some v => v
      | none => { major := 2, minor := 0, patch := 0 }
  appVersion.ltb marqoVersion || (marqoVersion.ltb appVersion && allowDowngrade)

/-- The deployed version as the claim resolves it: the `marqo_config.json`
version when configured, else the legacy config document's version, else
`2.0.0`. -/
def deployedVersion (configVersion : Option SemVersion) (marqoConfigDoc : Option SemVersion) :
    SemVersion :=
  configVersion.getD (marqoConfigDoc.getD { major := 2, minor := 0, patch := 0 })

/-- C7: `need_bootstrapping` returns true exactly when the new version is
greater than the deployed version (resolved with the priority
`marqo_config.json`, then legacy config document, then `2.0.0`), or the new
version is less than the deployed version and `allow_downgrade` is set. -/
theorem need_bootstrapping_iff (configVersion marqoConfigDoc : Option SemVersion)
    (marqoVersion : SemVersion) (allowDowngrade : Bool) :
    need_bootstrapping configVersion marqoConfigDoc marqoVersion allowDowngrade = true ↔
      (SemVersion.lt (deployedVersion configVersion marqoConfigDoc) marqoVersion ∨
        (SemVersion.lt marqoVersion (deployedVersion configVersion marqoConfigDoc) ∧
          allowDowngrade = true)) := by
  have happ :
      (match configVersion with
        | some v => v
        | none =>
          match marqoConfigDoc with
          | some v => v
          | none => { major := 2, minor := 0, patch := 0 }) =
        deployedVersion configVersion marqoConfigDoc := by
    cases configVersion with
    | some v => rfl
    | none => cases marqoConfigDoc with
      | some v => rfl
      | none => rfl
  unfold need_bootstrapping
  rw [happ]
  rw [Bool.or_eq_true, Bool.and_eq_true, SemVersion.ltb_iff_lt, SemVersion.ltb_iff_lt]

/-! ## Services manifest (`ServiceXml.add_schema`)

The `content/documents` element is embedded as the list of its `document`
child elements.  `ElementTree.Element.__bool__` is `len(children) != 0`, so the
guard `if self._documents.find(f'document[@type="<name>"]'):` is true only when
a matching element exists AND has at least one child element; each element is
embedded with its `type`/`mode` attributes and its number of children. -/

/-- A `document` child of the `content/documents` element. -/
structure DocumentElement where
  typeAttr : String
  modeAttr : String
  childCount : Nat
deriving DecidableEq, Repr

/-- `self._documents.find(f'document[@type="<name>"]')`: the first `document`
element with the given `type` attribute. -/
def findDocument (docs : List DocumentElement) (name : String) : Option DocumentElement :=
  docs.find? (fun d => d.typeAttr == name)

/-- `ServiceXml.add_schema`: the guard is the Python truthiness of
`find(...)`, which is false both for `None` and for a childless element. -/
def add_schema (docs : List DocumentElement) (name : String) : List DocumentElement :=
  match findDocument docs name with
  | some el =>
    if el.childCount ≠ 0 then
      docs  -- "Schema <name> already exists in services.xml, nothing to add"
    else
      docs ++ [{ typeAttr := name, modeAttr := "index", childCount := 0 }]
  | none => docs ++ [{ typeAttr := name, modeAttr := "index", childCount := 0 }]

/-- C6: evaluation at the failing input.  The `document` elements that
`add_schema` itself appends have no children, hence are falsy in
`ElementTree`; adding the same schema name twice therefore appends a duplicate
`document` element instead of leaving the manifest unchanged. -/
theorem add_schema_duplicates :
    add_schema (add_schema [] "s1") "s1" =
      [{ typeAttr := "s1", modeAttr := "index", childCount := 0 },
       { typeAttr := "s1", modeAttr := "index", childCount := 0 }] ∧
    add_schema (add_schema [] "s1") "s1" ≠ add_schema [] "s1" := by
  decide

/-! ## Lucene special-character sanitisation
(`marqo/tensor_search/filtering.py`, `sanitise_lucene_special_chars`) -/

/-- Modelled from the spec: `constants.LUCENE_SPECIAL_CHARS` and
`constants.NON_OFFICIAL_LUCENE_SPECIAL_CHARS` are not under `src/`; the set is
taken as the single-character special characters of the Lucene query-parser
escaping documentation referenced by the function's docstring (backslash
included), plus the space character as an unofficial addition.  The verified
property does not depend on the exact membership of the set. -/
def luceneSpecialChars : List Char :=
  ['+', '-', '!', '(', ')', '\x7b', '\x7d', '[', ']', '^', '\"', '~', '*', '?', ':', '\\', '/']

/-- Modelled from the spec: see `luceneSpecialChars`. -/
def nonOfficialLuceneSpecialChars : List Char :=
  [' ']

/-- `LUCENE_SPECIAL_CHARS.union(NON_OFFICIAL_LUCENE_SPECIAL_CHARS) - {'\\'}`. -/
def non_backslash_chars : List Char :=
  (luceneSpecialChars ++ nonOfficialLuceneSpecialChars).filter (fun c => c != '\\')

/-- Python `str.replace` with a single-character pattern, on strings embedded
as `List Char`. -/
def pyReplaceChar (s : List Char) (c : Char) (r : List Char) : List Char :=
  s.flatMap (fun x => if x = c then r else [x])

/-- `sanitise_lucene_special_chars`.  The source line
`to_be_sanitised.replace("\\", "\\\\")` discards its result (Python strings
are immutable), so it has no effect and contributes nothing here; the loop
then escapes each character of `non_backslash_chars` in turn. -/
def sanitise_lucene_special_chars (s : List Char) : List Char :=
  non_backslash_chars.foldl (fun acc c => pyReplaceChar acc c ['\\', c]) s

/-- Folding single-character escapes over a duplicate-free list of characters
not containing the backslash is the same as escaping character-wise. -/
theorem foldl_replace_eq_flatMap (L : List Char) (hnd : L.Nodup) (hb : '\\' ∉ L) :
    ∀ s : List Char,
      L.foldl (fun acc c => pyReplaceChar acc c ['\\', c]) s =
        s.flatMap (fun c => if c ∈ L then ['\\', c] else [c]) := by
  induction L with
  | nil =>
    intro s
    simp [pyReplaceChar]
  | cons d L ih =>
    intro s
    have hnd' : L.Nodup := hnd.of_cons
    have hdL : d ∉ L := (List.nodup_cons.mp hnd).1
    have hb' : '\\' ∉ L := fun h => hb (List.mem_cons_of_mem _ h)
    have hbd : '\\' ≠ d := fun h => hb (h ▸ List.mem_cons_self d L)
    rw [List.foldl_cons, ih hnd' hb' (pyReplaceChar s d ['\\', d])]
    unfold pyReplaceChar
    rw [List.flatMap_assoc]
    congr 1
    funext x
    by_cases hxd : x = d
    · subst hxd
      rw [if_pos rfl]
      simp [List.mem_cons, hb', hdL]
    · rw [if_neg hxd]
      by_cases hxL : x ∈ L
      · simp [List.mem_cons, hxL, hxd]
      · simp [List.mem_cons, hxL, hxd]

/-- C10: `sanitise_lucene_special_chars` prefixes every occurrence of a
special character other than the backslash with a backslash, character-wise,
and the backslash itself is not in the escaped set, so every backslash in the
input is left unescaped (the backslash `replace` on line 70 discards its
result). -/
theorem sanitise_lucene_special_chars_spec (s : List Char) :
    sanitise_lucene_special_chars s =
      s.flatMap (fun c => if c ∈ non_backslash_chars then ['\\', c] else [c]) ∧
    '\\' ∉ non_backslash_chars := by
  refine ⟨?_, by decide⟩
  exact foldl_replace_eq_flatMap non_backslash_chars (by decide) (by decide) s

/-! ## Structured Vespa index (`marqo/core/structured_vespa_index.py`)

The descriptor model (`marqo/core/models/marqo_index.py`) is not under `src/`;
its pieces used by `StructuredVespaIndex` are modelled from the spec.  In the
source `_generate_document_section` lazily writes the derived storage names
back onto the descriptor (`field.lexical_field_name = ...`); spec section 4.2
derives the same names from the field's features, which is how they are
embedded here (as pure functions of the field). -/

/-- `FieldType`, restricted to the members `StructuredVespaIndex` maps, plus
`MultimodalCombination`, which the generator and the validators special-case. -/
inductive FieldType where
  | Text
  | Bool
  | Int
  | Float
  | ArrayText
  | ArrayInt
  | ArrayFloat
  | ImagePointer
  | MultimodalCombination
deriving DecidableEq, Repr

/-- `FieldFeature`. -/
inductive FieldFeature where
  | LexicalSearch
  | Filter
  | ScoreModifier
deriving DecidableEq, Repr

/-- `DistanceMetric` (the source spells `PrenormalizedAnguar`). -/
inductive DistanceMetric where
  | Euclidean
  | Angular
  | DotProduct
  | PrenormalizedAnguar
  | Geodegrees
  | Hamming
deriving DecidableEq, Repr

/-- HNSW parameters. -/
structure HnswConfig where
  m : Nat
  ef_construction : Nat
deriving DecidableEq, Repr

/-- Modelled from the spec: a typed field descriptor (name, type, features). -/
structure Field where
  name : String
  type : FieldType
  features : List FieldFeature
deriving DecidableEq, Repr

/-- Modelled from the spec: a tensor field names a logical field. -/
structure TensorField where
  name : String
deriving DecidableEq, Repr

/-- Modelled from the spec: the parts of an `IndexDescriptor` that
`StructuredVespaIndex` reads (`marqo_index.model.get_dimension()` is embedded
as `model_dimension`). -/
structure MarqoIndex where
  name : String
  fields : List Field
  tensor_fields : List TensorField
  model_dimension : Nat
  distance_metric : DistanceMetric
  hnsw_config : HnswConfig
deriving DecidableEq, Repr

/-- Modelled from the spec: the `lexical_<name>` storage name a field with
`LexicalSearch` receives (`_INDEX_FIELD_PREFIX` is `marqo__lexical_`). -/
def Field.lexical_field_name (f : Field) : Option String :=
  if FieldFeature.LexicalSearch ∈ f.features then some ("marqo__lexical_" ++ f.name) else none

/-- Modelled from the spec: the `filter_<name>` storage name a field with
`Filter` receives (`_FILTER_FIELD_PREFIX` is `marqo__filter_`). -/
def Field.filter_field_name (f : Field) : Option String :=
  if FieldFeature.Filter ∈ f.features then some ("marqo__filter_" ++ f.name) else none

/-- Modelled from the spec: `chunks_<name>` storage name of a tensor field. -/
def TensorField.chunk_field_name (f : TensorField) : String :=
  "marqo__chunks_" ++ f.name

/-- Modelled from the spec: `embeddings_<name>` storage name of a tensor field. -/
def TensorField.embeddings_field_name (f : TensorField) : String :=
  "marqo__embeddings_" ++ f.name

/-- Modelled from the spec: `MarqoIndex.lexical_fields` — the lexical storage
names, in descriptor field order. -/
def MarqoIndex.lexical_fields (idx : MarqoIndex) : List String :=
  idx.fields.filterMap Field.lexical_field_name

/-- Modelled from the spec: `MarqoIndex.score_modifier_fields` — the names of
fields with the `ScoreModifier` feature, in descriptor field order. -/
def MarqoIndex.score_modifier_fields (idx : MarqoIndex) : List String :=
  (idx.fields.filter (fun f => decide (FieldFeature.ScoreModifier ∈ f.features))).map Field.name

/-- `_MARQO_TO_VESPA_TYPE_MAP`; `none` is the `KeyError` → `InternalError`
case (`MultimodalCombination` is the only unmapped member here). -/
def getVespaType : FieldType → Option String
  | FieldType.Text => some "string"
  | FieldType.Bool => some "bool"
  | FieldType.Int => some "int"
  | FieldType.Float => some "float"
  | FieldType.ArrayText => some "array<string>"
  | FieldType.ArrayInt => some "array<int>"
  | FieldType.ArrayFloat => some "array<float>"
  | FieldType.ImagePointer => some "string"
  | FieldType.MultimodalCombination => none

/-- `_DISTANCE_METRIC_MAP`. -/
def getDistanceMetric : DistanceMetric → String
  | DistanceMetric.Euclidean => "euclidean"
  | DistanceMetric.Angular => "angular"
  | DistanceMetric.DotProduct => "dotproduct"
  | DistanceMetric.PrenormalizedAnguar => "prenormalized-angular"
  | DistanceMetric.Geodegrees => "geodegrees"
  | DistanceMetric.Hamming => "hamming"

/-- The lines `_generate_document_section` emits for one ordinary field:
`continue` on `MultimodalCombination`, then a lexical and/or filter storage
field, or a plain summary field when the field has neither feature. -/
def generateFieldLines (field : Field) : List String :=
  if field.type = FieldType.MultimodalCombination then []
  else
    match getVespaType field.type with
    | none => []
    | some field_type =>
      (if FieldFeature.LexicalSearch ∈ field.features then
        ["field marqo__lexical_" ++ field.name ++ " type " ++ field_type ++ " \x7b",
         "indexing: index | summary",
         "index: enable-bm25",
         "\x7d"]
      else []) ++
      (if FieldFeature.Filter ∈ field.features then
        ["field marqo__filter_" ++ field.name ++ " type " ++ field_type ++ " \x7b",
         "indexing: attribute | summary",
         "attribute: fast-search",
         "rank: filter",
         "\x7d"]
      else []) ++
      (if FieldFeature.LexicalSearch ∉ field.features ∧ FieldFeature.Filter ∉ field.features then
        ["field " ++ field.name ++ " type " ++ field_type ++ " \x7b",
         "indexing: summary",
         "\x7d"]
      else [])

/-- The lines `_generate_document_section` emits for one tensor field: the
chunks array and the embeddings tensor with HNSW parameters. -/
def generateTensorFieldLines (idx : MarqoIndex) (field : TensorField) : List String :=
  ["field " ++ field.chunk_field_name ++ " type array<string> \x7b",
   "indexing: attribute | summary",
   "\x7d",
   "field " ++ field.embeddings_field_name ++ " type tensor<float>(p\x7b\x7d, x[" ++
     toString idx.model_dimension ++ "]) \x7b",
   "indexing: attribute | index | summary",
   "attribute \x7b distance-metric: " ++ getDistanceMetric idx.distance_metric ++ " \x7d",
   "index \x7b hnsw \x7b",
   "max-links-per-node: " ++ toString idx.hnsw_config.m,
   "neighbors-to-explore-at-insert: " ++ toString idx.hnsw_config.ef_construction,
   "\x7d\x7d",
   "\x7d"]

/-- `StructuredVespaIndex._generate_document_section`. -/
def generate_document_section (idx : MarqoIndex) : List String :=
  ["document " ++ idx.name ++ " \x7b",
   "field id type string \x7b indexing: summary \x7d"]
  ++ idx.fields.flatMap generateFieldLines
  ++ (if idx.score_modifier_fields ≠ [] then
        ["field marqo__score_modifiers type tensor<float>(p\x7b\x7d) \x7b indexing: attribute \x7d"]
      else [])
  ++ idx.tensor_fields.flatMap (generateTensorFieldLines idx)
  ++ ["\x7d"]

/-- The summary line `_generate_summaries` emits for one ordinary field: the
filter storage field is preferred as source, then the lexical one, then the
field itself. -/
def generateSummaryLine (field : Field) : List String :=
  if field.type = FieldType.MultimodalCombination then []
  else
    match getVespaType field.type with
    | none => []
    | some field_type =>
      let source_field_name :=
        match field.filter_field_name with
        | some n => n
        | none =>
          match field.lexical_field_name with
          | some n => n
          | none => field.name
      ["summary " ++ field.name ++ " type " ++ field_type ++ " \x7b source: " ++
        source_field_name ++ " \x7d"]

/-- `StructuredVespaIndex._generate_summaries`. -/
def generate_summaries (idx : MarqoIndex) : List String :=
  let non_vector_summary_fields :=
    idx.fields.flatMap generateSummaryLine
    ++ idx.tensor_fields.map (fun f =>
        "summary " ++ f.chunk_field_name ++ " type array<string> \x7b \x7d")
  let vector_summary_fields :=
    idx.tensor_fields.map (fun f =>
      "summary " ++ f.embeddings_field_name ++ " type tensor<float>(p\x7b\x7d, x[" ++
        toString idx.model_dimension ++ "]) \x7b \x7d")
  ["document-summary all-non-vector-summary \x7b"]
  ++ non_vector_summary_fields
  ++ ["\x7d", "document-summary all-vector-summary \x7b"]
  ++ non_vector_summary_fields
  ++ vector_summary_fields
  ++ ["\x7d"]

/-- `StructuredVespaIndex._generate_default_fieldset` (the source tests the
field list twice; both tests are transcribed). -/
def generate_default_fieldset (idx : MarqoIndex) : List String :=
  let fieldset_fields := idx.lexical_fields
  if fieldset_fields ≠ [] then
    ["fieldset default \x7b"]
    ++ (if fieldset_fields ≠ [] then
          ["fields: " ++ String.intercalate ", " fieldset_fields]
        else [])
    ++ ["\x7d"]
  else []

/-- The first-phase expression of the `bm25` rank profile:
`' + '.join([f'bm25("f")' for field in lexical_fields])`. -/
def bm25_expression (idx : MarqoIndex) : String :=
  String.intercalate " + " (idx.lexical_fields.map (fun field => "bm25(" ++ field ++ ")"))

/-- The first-phase expression of the `embedding_similarity` rank profile. -/
def embedding_similarity_expression (idx : MarqoIndex) : String :=
  String.intercalate " + " (idx.tensor_fields.map (fun field =>
    "if (query(" ++ field.name ++ ") > 0, closeness(field, " ++
      field.embeddings_field_name ++ "), 0)"))

/-- The body of the `modify(score)` function of the `modifiers` profile. -/
def modifiers_expression : String :=
  "if (count(query(mult_weights)) == 0, 1, reduce(query(mult_weights) * attribute(marqo__score_modifiers), prod)) * score + reduce(query(add_weights) * attribute(marqo__score_modifiers), sum)"

/-- `StructuredVespaIndex._generate_rank_profiles`. -/
def generate_rank_profiles (idx : MarqoIndex) : List String :=
  (if idx.lexical_fields ≠ [] then
    ["rank-profile bm25 inherits default \x7b first-phase \x7b",
     "expression: " ++ bm25_expression idx,
     "\x7d\x7d"]
   else [])
  ++ (if idx.tensor_fields ≠ [] then
    ["rank-profile embedding_similarity inherits default \x7b",
     "inputs \x7b",
     "query(query_embedding) tensor<float>(x[" ++ toString idx.model_dimension ++ "])"]
    ++ idx.tensor_fields.map (fun field => "query(" ++ field.name ++ "): 1")
    ++ ["\x7d",
        "first-phase \x7b",
        "expression: " ++ embedding_similarity_expression idx,
        "\x7d\x7d"]
   else [])
  ++ (if idx.score_modifier_fields ≠ [] then
    (["rank-profile modifiers inherits default \x7b",
      "inputs \x7b",
      "query(mult_weights)  tensor<float>(p\x7b\x7d)",
      "query(add_weights)  tensor<float>(p\x7b\x7d)",
      "\x7d",
      "function modify(score) \x7b",
      "expression: " ++ modifiers_expression,
      "\x7d\x7d"]
     ++ (if idx.lexical_fields ≠ [] then
          ["rank-profile bm25_modifiers inherits modifiers \x7b first-phase \x7b",
           "expression: modify(" ++ bm25_expression idx ++ ")",
           "\x7d\x7d"]
        else [])
     ++ (if idx.tensor_fields ≠ [] then
          ["rank-profile embedding_similarity_modifiers inherits modifiers \x7b first-phase \x7b",
           "expression: modify(" ++ embedding_similarity_expression idx ++ ")",
           "\x7d\x7d"]
        else []))
   else [])

/-- `StructuredVespaIndex.generate_schema`: header, document section, rank
profiles, default fieldset, summaries, closing brace, joined by newlines. -/
def generate_schema (idx : MarqoIndex) : String :=
  String.intercalate "\n"
    (["schema " ++ idx.name ++ " \x7b"]
     ++ generate_document_section idx
     ++ generate_rank_profiles idx
     ++ generate_default_fieldset idx
     ++ generate_summaries idx
     ++ ["\x7d"])

/-- The schema in the section order stated by the claim: document fields
block, then the default fieldset, then the summaries, then the rank profiles. -/
def claimed_schema_order (idx : MarqoIndex) : String :=
  String.intercalate "\n"
    (["schema " ++ idx.name ++ " \x7b"]
     ++ generate_document_section idx
     ++ generate_default_fieldset idx
     ++ generate_summaries idx
     ++ generate_rank_profiles idx
     ++ ["\x7d"])

/-- An index with lexical, filter, score-modifier and tensor fields. -/
def exampleIndex : MarqoIndex :=
  { name := "my-index",
    fields := [
      { name := "title", type := FieldType.Text, features := [FieldFeature.LexicalSearch] },
      { name := "body", type := FieldType.Text,
        features := [FieldFeature.LexicalSearch, FieldFeature.Filter] },
      { name := "rating", type := FieldType.Float, features := [FieldFeature.ScoreModifier] } ],
    tensor_fields := [{ name := "title" }],
    model_dimension := 3,
    distance_metric := DistanceMetric.Angular,
    hnsw_config := { m := 16, ef_construction := 100 } }

set_option maxRecDepth 100000 in
/-- Counterexample to C4: the generated schema does not follow the claimed
section order — `generate_schema` emits the rank profiles directly after the
document section, before the fieldset and the summaries. -/
theorem generate_schema_order_counterexample :
    generate_schema exampleIndex ≠ claimed_schema_order exampleIndex := by
  decide

/-- C4 (amended): the generated schema contains its sections in this order:
document fields block (with the score-modifier tensor and the tensor-field
chunk/embedding pairs inside it), then the rank profiles, then the default
fieldset over lexical fields, then the two summaries. -/
theorem generate_schema_section_order (idx : MarqoIndex) :
    generate_schema idx = String.intercalate "\n"
      (["schema " ++ idx.name ++ " \x7b"]
       ++ generate_document_section idx
       ++ generate_rank_profiles idx
       ++ generate_default_fieldset idx
       ++ generate_summaries idx
       ++ ["\x7d"]) := rfl

/-- The lexical storage names are exactly the fields with `LexicalSearch`, in
descriptor order, each under the `marqo__lexical_` storage name. -/
theorem lexical_fields_eq_filter_map (fields : List Field) :
    fields.filterMap Field.lexical_field_name =
      (fields.filter (fun f => decide (FieldFeature.LexicalSearch ∈ f.features))).map
        (fun f => "marqo__lexical_" ++ f.name) := by
  induction fields with
  | nil => rfl
  | cons f rest ih =>
    by_cases hf : FieldFeature.LexicalSearch ∈ f.features
    · simp [List.filterMap_cons, List.filter_cons, Field.lexical_field_name, hf, ih]
    · simp [List.filterMap_cons, List.filter_cons, Field.lexical_field_name, hf, ih]

/-- C5: when the lexical field set is nonempty, the generated `bm25` rank
profile's first-phase expression is the `' + '`-join of `bm25(f)` over the
lexical storage fields, in descriptor field order. -/
theorem bm25_rank_profile_expression (idx : MarqoIndex) (h : idx.lexical_fields ≠ []) :
    (generate_rank_profiles idx).take 3 =
      ["rank-profile bm25 inherits default \x7b first-phase \x7b",
       "expression: " ++ String.intercalate " + "
         (((idx.fields.filter (fun f => decide (FieldFeature.LexicalSearch ∈ f.features))).map
           (fun f => "bm25(marqo__lexical_" ++ f.name ++ ")"))),
       "\x7d\x7d"] := by
  unfold generate_rank_profiles
  rw [if_pos h]
  have hexpr : bm25_expression idx =
      String.intercalate " + "
        (((idx.fields.filter (fun f => decide (FieldFeature.LexicalSearch ∈ f.features))).map
          (fun f => "bm25(marqo__lexical_" ++ f.name ++ ")"))) := by
    unfold bm25_expression MarqoIndex.lexical_fields
    rw [lexical_fields_eq_filter_map, List.map_map]
    congr 1
  rw [hexpr]
  rfl

/-- Witness for C5 at `exampleIndex`: the `bm25` profile sums `bm25` over the
two lexical fields in order. -/
theorem bm25_rank_profile_expression_witness :
    (generate_rank_profiles exampleIndex).take 3 =
      ["rank-profile bm25 inherits default \x7b first-phase \x7b",
       "expression: bm25(marqo__lexical_title) + bm25(marqo__lexical_body)",
       "\x7d\x7d"] := by
  rw [bm25_rank_profile_expression exampleIndex (by decide)]
  decide

/-! ## Document translation (`StructuredVespaIndex.to_vespa_document` /
`to_marqo_document`)

Logical documents are embedded with `_id` and `_tensors` as separate
components (in the source they are keys of one dict that the field loop
skips).  Field values are embedded as JSON-ish values; numeric values use `Rat`
in place of Python floats, which the translator only passes through. -/

/-- A logical field value. -/
inductive MarqoValue where
  | str (s : String)
  | boolVal (b : Bool)
  | intVal (i : Int)
  | floatVal (q : Rat)
  | strArray (l : List String)
  | intArray (l : List Int)
  | floatArray (l : List Rat)
deriving DecidableEq, Repr

/-- `isinstance(value, list)`. -/
def MarqoValue.isList : MarqoValue → Bool
  | MarqoValue.strArray _ => true
  | MarqoValue.intArray _ => true
  | MarqoValue.floatArray _ => true
  | _ => false

/-- The check `_verify_marqo_field_type` performs against
`_MARQO_TO_PYTHON_TYPE_MAP` (Python `bool` is a subclass of `int`, so `Int`
and `Float` fields also accept booleans; `Float` accepts `int`). -/
def matchesPythonType : FieldType → MarqoValue → Bool
  | FieldType.Text, MarqoValue.str _ => true
  | FieldType.Bool, MarqoValue.boolVal _ => true
  | FieldType.Int, MarqoValue.intVal _ => true
  | FieldType.Int, MarqoValue.boolVal _ => true
  | FieldType.Float, MarqoValue.floatVal _ => true
  | FieldType.Float, MarqoValue.intVal _ => true
  | FieldType.Float, MarqoValue.boolVal _ => true
  | FieldType.ArrayText, v => v.isList
  | FieldType.ArrayInt, v => v.isList
  | FieldType.ArrayFloat, v => v.isList
  | FieldType.ImagePointer, MarqoValue.str _ => true
  | _, _ => false

/-- The `_tensors` entry of one tensor field: chunks and per-chunk embeddings. -/
structure TensorContent where
  chunks : List String
  embeddings : List (List Rat)
deriving DecidableEq, Repr

/-- A logical (Marqo) document. -/
structure MarqoDocument where
  id : Option String
  fields : List (String × MarqoValue)
  tensors : Option (List (String × TensorContent))
deriving DecidableEq, Repr

/-- A value of a backend (Vespa) document field: a passed-through logical
value, a chunks array, or an index-keyed embeddings mapping. -/
inductive VespaValue where
  | ofMarqo (v : MarqoValue)
  | chunks (cs : List String)
  | embeddings (m : List (String × List Rat))
deriving DecidableEq, Repr

/-- A backend (Vespa) document. -/
structure VespaDocument where
  id : Option String
  fields : List (String × VespaValue)
deriving DecidableEq, Repr

/-- The exceptions `to_vespa_document` raises. -/
inductive TranslationError where
  | invalidFieldName
  | invalidDataType
  | internalError
deriving DecidableEq, Repr

/-- Modelled from the spec: the cached `MarqoIndex.field_map` dict
`{field.name: field}`. -/
def MarqoIndex.field_map (idx : MarqoIndex) (k : String) : Option Field :=
  idx.fields.find? (fun f => f.name == k)

/-- Modelled from the spec: the cached `MarqoIndex.tensor_field_map` dict
`{field.name: field}` over tensor fields. -/
def MarqoIndex.tensor_field_map (idx : MarqoIndex) (k : String) : Option TensorField :=
  idx.tensor_fields.find? (fun f => f.name == k)

/-- `_verify_marqo_field_type`: `_get_python_type` raises `InternalError` on a
type outside the map (`MultimodalCombination`); otherwise a value of the wrong
Python type raises `InvalidDataTypeError`. -/
def verifyMarqoFieldType (t : FieldType) (v : MarqoValue) : Except TranslationError Unit :=
  if t = FieldType.MultimodalCombination then
    Except.error TranslationError.internalError
  else if matchesPythonType t v then
    Except.ok ()
  else
    Except.error TranslationError.invalidDataType

/-- The body of the field loop of `to_vespa_document` for one field: verify
the name against `field_map` (`InvalidFieldNameError`), verify the type, then
route the value to the lexical and/or filter storage names, or to the plain
field name when the field has neither. -/
def translateField (idx : MarqoIndex) (fieldName : String) (val : MarqoValue) :
    Except TranslationError (List (String × VespaValue)) :=
  match idx.field_map fieldName with
  | none => Except.error TranslationError.invalidFieldName
  | some field =>
    match verifyMarqoFieldType field.type val with
    | Except.error e => Except.error e
    | Except.ok _ =>
      Except.ok
        ((match field.lexical_field_name with
          | some n => [(n, VespaValue.ofMarqo val)]
          | none => []) ++
         (match field.filter_field_name with
          | some n => [(n, VespaValue.ofMarqo val)]
          | none => []) ++
         (if field.lexical_field_name = none ∧ field.filter_field_name = none then
            [(field.name, VespaValue.ofMarqo val)]
          else []))

/-- The field loop of `to_vespa_document` (raises on the first bad field). -/
def translateRegularFields (idx : MarqoIndex) :
    List (String × MarqoValue) → Except TranslationError (List (String × VespaValue))
  | [] => Except.ok []
  | (k, v) :: rest => do
    let entries ← translateField idx k v
    let restEntries ← translateRegularFields idx rest
    Except.ok (entries ++ restEntries)

/-- The body of the tensor loop for one `_tensors` entry.
`_verify_marqo_tensor_field_name` checks membership in `field_map` (not
`tensor_field_map`); `_verify_marqo_tensor_field` requires exactly the keys
`chunks` and `embeddings`, which `TensorContent` carries by construction; the
subsequent `tensor_field_map[...]` lookup would raise an uncaught `KeyError`
for a field outside it.  The embeddings are stored as the mapping
`{str(i): embeddings[i]}`. -/
def translateTensorField (idx : MarqoIndex) (tensorName : String) (tc : TensorContent) :
    Except TranslationError (List (String × VespaValue)) :=
  match idx.field_map tensorName with
  | none => Except.error TranslationError.invalidFieldName
  | some _ =>
    match idx.tensor_field_map tensorName with
    | none => Except.error TranslationError.internalError
    | some tf =>
      Except.ok
        [(tf.chunk_field_name, VespaValue.chunks tc.chunks),
         (tf.embeddings_field_name,
          VespaValue.embeddings (tc.embeddings.enum.map (fun p => (toString p.1, p.2))))]

/-- The tensor loop of `to_vespa_document`. -/
def translateTensorFields (idx : MarqoIndex) :
    List (String × TensorContent) → Except TranslationError (List (String × VespaValue))
  | [] => Except.ok []
  | (k, v) :: rest => do
    let entries ← translateTensorField idx k v
    let restEntries ← translateTensorFields idx rest
    Except.ok (entries ++ restEntries)

/-- `StructuredVespaIndex.to_vespa_document`: the `id` field first (when
`_id` is present), then the ordinary fields, then the tensor fields. -/
def to_vespa_document (d : MarqoDocument) (idx : MarqoIndex) :
    Except TranslationError VespaDocument := do
  let idEntries :=
    match d.id with
    | some i => [("id", VespaValue.ofMarqo (MarqoValue.str i))]
    | none => []
  let regularEntries ← translateRegularFields idx d.fields
  let tensorEntries ←
    match d.tensors with
    | some ts => translateTensorFields idx ts
    | none => Except.ok []
  Except.ok { id := d.id, fields := idEntries ++ regularEntries ++ tensorEntries }

/-- `StructuredVespaIndex.to_marqo_document` (lines 135-136 of
`marqo/core/structured_vespa_index.py`): the body is `pass`, so the method
returns `None` for every backend document. -/
def to_marqo_document (_vespaDocument : VespaDocument) (_idx : MarqoIndex) :
    Option MarqoDocument :=
  none

/-- A logical document valid against `exampleIndex`. -/
def exampleDocument : MarqoDocument :=
  { id := some "doc1",
    fields := [("title", MarqoValue.str "hello")],
    tensors := some [("title", { chunks := ["hello"], embeddings := [[1, 0, 0]] })] }

/-- The backend document `to_vespa_document` produces for `exampleDocument`. -/
def exampleVespaDocument : VespaDocument :=
  { id := some "doc1",
    fields := [("id", VespaValue.ofMarqo (MarqoValue.str "doc1")),
               ("marqo__lexical_title", VespaValue.ofMarqo (MarqoValue.str "hello")),
               ("marqo__chunks_title", VespaValue.chunks ["hello"]),
               ("marqo__embeddings_title", VespaValue.embeddings [("0", [1, 0, 0])])] }

/-- C1: evaluation at the failing input.  Translating a valid document to a
backend document succeeds, but translating back yields `None` — the structured
`to_marqo_document` is an unimplemented stub (`pass`) — so the round trip does
not return the original document. -/
theorem roundtrip_returns_none :
    to_vespa_document exampleDocument exampleIndex = Except.ok exampleVespaDocument ∧
    to_marqo_document exampleVespaDocument exampleIndex = none := by
  constructor
  · rfl
  · rfl

end Marqo
